import Mathlib

/-!
Shallow embedding of `src/kretzfile/kretzfile.py` (class `KretzFileLoader`).

Files are modelled as lists of byte values (`List Nat`, each entry `< 256` for
real files).  Numeric samples are modelled by their little-endian bit patterns
as natural numbers, which is faithful for every claim here: no claim inspects
the floating-point or signed interpretation of a sample, only buffer contents,
lengths and shapes.  Python exceptions are modelled by `Except PyError`.
-/

namespace Kretz

/-- Little-endian interpretation of a byte list as a natural number
(the bit pattern read by `struct.unpack` / `np.frombuffer`). -/
def leDecode : List Nat → Nat
  | [] => 0
  | b :: bs => b + 256 * leDecode bs

/-- Little-endian encoding of a value into `w` bytes. -/
def leEncode : Nat → Nat → List Nat
  | 0, _ => []
  | w + 1, v => v % 256 :: leEncode w (v / 256)

/-- `f.seek(off); f.read(k)` on a file: the `k` bytes starting at `off`
(shorter if the file ends first). -/
def readAt (file : List Nat) (off k : Nat) : List Nat :=
  (file.drop off).take k

/-- Split a list into consecutive chunks of `k` elements
(the grouping performed by `np.frombuffer` and by a C-order reshape). -/
def chunk {α : Type} (k : Nat) (l : List α) : List (List α) :=
  if k = 0 then []
  else
    match l with
    | [] => []
    | x :: xs => ((x :: xs).take k) :: chunk k ((x :: xs).drop k)
termination_by l.length
decreasing_by
  simp only [List.length_drop, List.length_cons]
  omega

/-- The Python exceptions the loader can raise, by kind. -/
inductive PyError where
  /-- `FileNotFoundError` from `__init__` when the path does not exist. -/
  | fileNotFound : PyError
  /-- `ValueError("Invalid Kretzfile format ...")` from the magic check;
  the payload is the raw 9 bytes actually read (the message renders them). -/
  | formatError (got : List Nat) : PyError
  /-- `UnicodeDecodeError` from `version_bytes.decode("ascii")`. -/
  | unicodeError : PyError
  /-- `struct.error` from `struct.unpack` on a short read; the payload is the
  format string of the failing unpack. -/
  | structError (fmt : String) : PyError
  /-- `ValueError` from `np.frombuffer` when the buffer size is not a
  multiple of the element size. -/
  | bufferError : PyError
deriving DecidableEq, Repr

instance {ε α : Type} [DecidableEq ε] [DecidableEq α] : DecidableEq (Except ε α) :=
  fun x y =>
    match x, y with
    | .error e, .error e' =>
      if h : e = e' then isTrue (by rw [h])
      else isFalse (by intro hc; injection hc; exact h (by assumption))
    | .ok a, .ok a' =>
      if h : a = a' then isTrue (by rw [h])
      else isFalse (by intro hc; injection hc; exact h (by assumption))
    | .error _, .ok _ => isFalse (by intro hc; cases hc)
    | .ok _, .error _ => isFalse (by intro hc; cases hc)

/-- `struct.unpack("<I", bs)[0]`: requires exactly 4 bytes. -/
def unpackU32 (bs : List Nat) : Except PyError Nat :=
  if bs.length = 4 then .ok (leDecode bs) else .error (.structError "<I")

/-- `struct.unpack("<B", bs)[0]`: requires exactly 1 byte. -/
def unpackU8 (bs : List Nat) : Except PyError Nat :=
  if bs.length = 1 then .ok (leDecode bs) else .error (.structError "<B")

/-- A triple of numeric fields (dimensions as u32 values; spacing and origin
as raw f32 bit patterns, which no claim interprets numerically). -/
structure Vec3 where
  x : Nat
  y : Nat
  z : Nat
deriving DecidableEq, Repr

/-- `struct.unpack("<III", bs)`: requires exactly 12 bytes. -/
def unpackU32x3 (bs : List Nat) : Except PyError Vec3 :=
  if bs.length = 12 then
    .ok ⟨leDecode (bs.take 4), leDecode ((bs.drop 4).take 4), leDecode (bs.drop 8)⟩
  else .error (.structError "<III")

/-- `struct.unpack("<fff", bs)`: requires exactly 12 bytes; the three f32
fields are kept as their 32-bit patterns. -/
def unpackF32x3 (bs : List Nat) : Except PyError Vec3 :=
  if bs.length = 12 then
    .ok ⟨leDecode (bs.take 4), leDecode ((bs.drop 4).take 4), leDecode (bs.drop 8)⟩
  else .error (.structError "<fff")

/-- `bytes.decode("ascii")`: succeeds exactly when every byte is `< 128`. -/
def asciiDecode (bs : List Nat) : Except PyError String :=
  if bs.all (fun b => b < 128) then .ok (String.mk (bs.map Char.ofNat))
  else .error .unicodeError

/-- `bytes.rstrip(b"\x00")`: drop trailing zero bytes.  The subsequent
UTF-8 decode with replacement never fails and no claim reads its value,
so the field keeps its stripped raw bytes. -/
def rstripNull (bs : List Nat) : List Nat :=
  (bs.reverse.dropWhile (fun b => b = 0)).reverse

/-- The `coord_systems` dict of `_parse_header`, as `dict.get` input. -/
def coordSystems (b : Nat) : Option String :=
  if b = 0 then some "cartesian"
  else if b = 1 then some "toroidal"
  else if b = 2 then some "spherical"
  else if b = 3 then some "cylindrical"
  else none

/-- `coord_systems.get(coord_type, f"unknown_{coord_type}")`. -/
def coordName (b : Nat) : String :=
  (coordSystems b).getD ("unknown_" ++ toString b)

/-- The `data_types` dict of `_parse_header`. -/
def dataTypes (b : Nat) : Option String :=
  if b = 0 then some "uint8"
  else if b = 1 then some "uint16"
  else if b = 2 then some "uint32"
  else if b = 3 then some "int8"
  else if b = 4 then some "int16"
  else if b = 5 then some "int32"
  else if b = 6 then some "float32"
  else if b = 7 then some "float64"
  else none

/-- `data_types.get(data_type, f"unknown_{data_type}")`. -/
def dataTypeName (b : Nat) : String :=
  (dataTypes b).getD ("unknown_" ++ toString b)

/-- The numpy dtypes that can appear as volume element types. -/
inductive NpDtype where
  | uint8 | uint16 | uint32 | int8 | int16 | int32 | float32 | float64
deriving DecidableEq, Repr

/-- The `dtype_map.get(data_type_str, np.uint8)` lookup of `_parse_volume_data`. -/
def dtypeMapGet (s : String) : NpDtype :=
  if s = "uint8" then .uint8
  else if s = "uint16" then .uint16
  else if s = "uint32" then .uint32
  else if s = "int8" then .int8
  else if s = "int16" then .int16
  else if s = "int32" then .int32
  else if s = "float32" then .float32
  else if s = "float64" then .float64
  else .uint8

/-- `dtype(0).itemsize`. -/
def itemsize : NpDtype → Nat
  | .uint8 => 1
  | .uint16 => 2
  | .uint32 => 4
  | .int8 => 1
  | .int16 => 2
  | .int32 => 4
  | .float32 => 4
  | .float64 => 8

/-- Element byte width used by `_parse_volume_data` for a data-type label. -/
def dtypeWidth (s : String) : Nat :=
  itemsize (dtypeMapGet s)

/-- `np.frombuffer(bytes, dtype)`: fails unless the buffer length is a
multiple of the element size; otherwise decodes consecutive `w`-byte
little-endian groups. -/
def npFrombuffer (bs : List Nat) (w : Nat) : Except PyError (List Nat) :=
  if bs.length % w = 0 then .ok ((chunk w bs).map leDecode)
  else .error .bufferError

/-- The `while` loop of `_decompress_rle`: `acc` is `result`, `data` is the
unread remainder of the stream. -/
def rleGo (w numVoxels : Nat) (data acc : List Nat) : List Nat :=
  match data with
  | [] => acc
  | count :: rest =>
    if acc.length < numVoxels then
      if count = 0 then acc
      else if (rest.take w).length < w then acc
      else rleGo w numVoxels (rest.drop w)
        (acc ++ List.replicate count (leDecode (rest.take w)))
    else acc
termination_by data.length
decreasing_by
  simp only [List.length_drop, List.length_cons]
  omega

/-- `KretzFileLoader._decompress_rle(data, dtype, num_voxels)` with the dtype
abstracted to its byte width `w`. -/
def decompressRLE (data : List Nat) (w numVoxels : Nat) : List Nat :=
  rleGo w numVoxels data []

/-- The flat-buffer step of `_parse_volume_data`: either the RLE branch
(`compressed_data = f.read()` from offset 256) or the uncompressed
`np.frombuffer(f.read(num_voxels * voxel_size), dtype)` read. -/
def decodeFlat (numVoxels w : Nat) (compressed : Bool) (payload : List Nat) :
    Except PyError (List Nat) :=
  if compressed then
    if payload.length > 0 then .ok (decompressRLE payload w numVoxels)
    else .ok []
  else
    npFrombuffer (payload.take (numVoxels * w)) w

/-- `KretzFileLoader._parse_volume_data`: returns the `volume_data_missing`
flag together with the flat sample buffer that gets reshaped to
`(dims.x, dims.y, dims.z)` in C order.  `payload` is the file content from
offset 256 on. -/
def parseVolumeData (dims : Vec3) (dataTypeStr : String) (compressed : Bool)
    (payload : List Nat) : Except PyError (Bool × List Nat) :=
  let numVoxels := dims.x * dims.y * dims.z
  let w := dtypeWidth dataTypeStr
  match decodeFlat numVoxels w compressed payload with
  | .error e => .error e
  | .ok volumeData =>
    if volumeData.length = numVoxels then .ok (false, volumeData)
    else .ok (true, List.replicate numVoxels 0)

/-- `volume_data.reshape((x, y, z), order="C")` of a flat buffer:
the outer grouping is by `y * z`-blocks expressed as `y` rows of `z`. -/
def reshape3 (dims : Vec3) (flat : List Nat) : List (List (List Nat)) :=
  chunk dims.y (chunk dims.z flat)

/-- `volume[ix, iy, iz]` on the reshaped volume. -/
def volAt (vol : List (List (List Nat))) (ix iy iz : Nat) : Nat :=
  ((vol.getD ix []).getD iy []).getD iz 0

/-- The decoded `self.metadata` dictionary. `volumeDataMissing = false`
models the key being absent (the code only ever sets it to `True`). -/
structure Metadata where
  version : String
  frameCount : Nat
  dimensions : Vec3
  spacing : Vec3
  coordinateSystem : String
  dataType : String
  compressed : Bool
  patientName : List Nat
  studyDate : List Nat
  studyTime : List Nat
  acquisitionMode : List Nat
  systemName : List Nat
  probeName : List Nat
  origin : Vec3
  volumeDataMissing : Bool
deriving DecidableEq, Repr

/-- The ASCII bytes of the magic string `KRETZFILE`. -/
def MAGIC : List Nat := [75, 82, 69, 84, 90, 70, 73, 76, 69]

/-- `KretzFileLoader._parse_header`: the fixed-offset field reads.  The
fallible reads happen in source order (frame count, dimensions, spacing,
coordinate system, data type, compression, then origin); the string fields
never fail. -/
def parseHeader (file : List Nat) (version : String) : Except PyError Metadata := do
  let frameCount ← unpackU32 (readAt file 16 4)
  let dims ← unpackU32x3 (readAt file 20 12)
  let spacing ← unpackF32x3 (readAt file 32 12)
  let coordType ← unpackU8 (readAt file 44 1)
  let dataTypeB ← unpackU8 (readAt file 45 1)
  let compressionB ← unpackU8 (readAt file 46 1)
  let origin ← unpackF32x3 (readAt file 240 12)
  .ok { version := version
        frameCount := frameCount
        dimensions := dims
        spacing := spacing
        coordinateSystem := coordName coordType
        dataType := dataTypeName dataTypeB
        compressed := decide (compressionB ≠ 0)
        patientName := rstripNull (readAt file 48 64)
        studyDate := rstripNull (readAt file 112 16)
        studyTime := rstripNull (readAt file 128 16)
        acquisitionMode := rstripNull (readAt file 144 32)
        systemName := rstripNull (readAt file 176 32)
        probeName := rstripNull (readAt file 208 32)
        origin := origin
        volumeDataMissing := false }

/-- `KretzFileLoader._load_file` on the file content: magic check, version
decode, separator byte at offset 12 read and discarded, header parse, then
volume parse from offset 256. -/
def loadFile (file : List Nat) : Except PyError (Metadata × List Nat) :=
  let magic := readAt file 0 9
  if magic ≠ MAGIC then .error (.formatError magic)
  else
    match asciiDecode (readAt file 9 3) with
    | .error e => .error e
    | .ok version =>
      match parseHeader file version with
      | .error e => .error e
      | .ok md =>
        match parseVolumeData md.dimensions md.dataType md.compressed (file.drop 256) with
        | .error e => .error e
        | .ok (missing, flat) => .ok ({ md with volumeDataMissing := missing }, flat)

/-- `KretzFileLoader.__init__`: a missing path (modelled as `none`) raises
`FileNotFoundError` before any read; otherwise the file is loaded. -/
def kretzLoad (contents : Option (List Nat)) : Except PyError (Metadata × List Nat) :=
  match contents with
  | none => .error .fileNotFound
  | some file => loadFile file

/-- A compressed payload written as RLE `(count_byte, value_bytes)` pairs,
with each value encoded into `w` little-endian bytes. -/
def rleEncodePairs (w : Nat) (pairs : List (Nat × Nat)) : List Nat :=
  pairs.flatMap (fun p => p.1 :: leEncode w p.2)

/-- The flat sample array an RLE pair list stands for. -/
def rleExpand (pairs : List (Nat × Nat)) : List Nat :=
  pairs.flatMap (fun p => List.replicate p.1 p.2)

/-! ### Little-endian encode/decode lemmas -/

theorem leEncode_length (w v : Nat) : (leEncode w v).length = w := by
  induction w generalizing v with
  | zero => rfl
  | succ w ih => simp [leEncode, ih]

theorem leDecode_leEncode {w v : Nat} (h : v < 256 ^ w) :
    leDecode (leEncode w v) = v := by
  induction w generalizing v with
  | zero =>
    simp only [pow_zero, Nat.lt_one_iff] at h
    simp [h, leEncode, leDecode]
  | succ w ih =>
    have hdiv : v / 256 < 256 ^ w := by
      rw [Nat.div_lt_iff_lt_mul (by norm_num : 0 < 256)]
      calc v < 256 ^ (w + 1) := h
        _ = 256 ^ w * 256 := by ring
    simp only [leEncode, leDecode, ih hdiv]
    omega

/-! ### Chunking lemmas -/

theorem chunk_nil {α : Type} (k : Nat) : chunk (α := α) k [] = [] := by
  unfold chunk
  split <;> rfl

theorem chunk_cons {α : Type} (k : Nat) (hk : k ≠ 0) (x : α) (xs : List α) :
    chunk k (x :: xs) = ((x :: xs).take k) :: chunk k ((x :: xs).drop k) := by
  conv_lhs => rw [chunk]
  simp [hk]

theorem chunk_append {α : Type} (k : Nat) (hk : k ≠ 0) (l₁ l₂ : List α)
    (h : l₁.length = k) :
    chunk k (l₁ ++ l₂) = l₁ :: chunk k l₂ := by
  cases l₁ with
  | nil => simp at h; omega
  | cons a as =>
    rw [List.cons_append, chunk_cons k hk]
    rw [← List.cons_append, ← h, List.take_left, List.drop_left]

theorem chunk_length {α : Type} (k : Nat) (hk : k ≠ 0) :
    ∀ (m : Nat) (l : List α), l.length = m * k → (chunk k l).length = m := by
  intro m
  induction m with
  | zero =>
    intro l hl
    simp only [Nat.zero_mul, List.length_eq_zero] at hl
    simp [hl, chunk_nil]
  | succ m ih =>
    intro l hl
    have hmk : (m + 1) * k = m * k + k := by ring
    cases l with
    | nil => simp at hl; omega
    | cons a as =>
      have hdrop : ((a :: as).drop k).length = m * k := by
        simp only [List.length_drop, List.length_cons]
        rw [List.length_cons] at hl
        omega
      rw [chunk_cons k hk, List.length_cons, ih ((a :: as).drop k) hdrop]

theorem chunk_getD {α : Type} (k : Nat) (hk : k ≠ 0) :
    ∀ (i m : Nat) (l : List α) (d : List α), l.length = m * k → i < m →
      (chunk k l).getD i d = (l.drop (i * k)).take k := by
  intro i
  induction i with
  | zero =>
    intro m l d hl hi
    cases l with
    | nil =>
      simp only [List.length_nil] at hl
      rcases Nat.mul_eq_zero.mp hl.symm with h | h <;> omega
    | cons a as => rw [chunk_cons k hk, List.getD_cons_zero, Nat.zero_mul, List.drop_zero]
  | succ i ih =>
    intro m l d hl hi
    cases l with
    | nil =>
      simp only [List.length_nil] at hl
      rcases Nat.mul_eq_zero.mp hl.symm with h | h <;> omega
    | cons a as =>
      have hmk : m * k = (m - 1) * k + k := by
        cases m with
        | zero => omega
        | succ m => simp only [Nat.succ_sub_one]; ring
      have hdrop : ((a :: as).drop k).length = (m - 1) * k := by
        simp only [List.length_drop, List.length_cons]
        rw [List.length_cons] at hl
        omega
      rw [chunk_cons k hk, List.getD_cons_succ, ih (m - 1) ((a :: as).drop k) d hdrop (by omega),
        List.drop_drop]
      congr 2
      ring

theorem getD_take_of_lt {α : Type} (l : List α) (b j : Nat) (d : α) (h : j < b) :
    (l.take b).getD j d = l.getD j d := by
  rw [List.getD_eq_getElem?_getD, List.getD_eq_getElem?_getD, List.getElem?_take]
  simp [h]

theorem getD_drop {α : Type} (l : List α) (a j : Nat) (d : α) :
    (l.drop a).getD j d = l.getD (a + j) d := by
  rw [List.getD_eq_getElem?_getD, List.getD_eq_getElem?_getD, List.getElem?_drop]

/-! ### RLE loop lemmas -/

theorem rleGo_nil (w n : Nat) (acc : List Nat) : rleGo w n [] acc = acc := by
  unfold rleGo
  rfl

theorem rleGo_cons (w n count : Nat) (rest acc : List Nat) :
    rleGo w n (count :: rest) acc =
      if acc.length < n then
        if count = 0 then acc
        else if (rest.take w).length < w then acc
        else rleGo w n (rest.drop w)
          (acc ++ List.replicate count (leDecode (rest.take w)))
      else acc := by
  conv_lhs => rw [rleGo]

theorem rleGo_stop (w n : Nat) (data acc : List Nat) (h : ¬ acc.length < n) :
    rleGo w n data acc = acc := by
  cases data with
  | nil => exact rleGo_nil w n acc
  | cons count rest => rw [rleGo_cons, if_neg h]

/-- Core round-trip invariant: a well-formed encoded pair stream followed by
an arbitrary suffix decodes to the expansion of the pairs, as long as the
output budget `n` has room for the whole expansion. -/
theorem rleGo_encode (w n : Nat) (pairs : List (Nat × Nat)) :
    ∀ (suffix acc : List Nat),
      (∀ p ∈ pairs, 1 ≤ p.1 ∧ p.2 < 256 ^ w) →
      acc.length + (rleExpand pairs).length ≤ n →
      rleGo w n (rleEncodePairs w pairs ++ suffix) acc
        = rleGo w n suffix (acc ++ rleExpand pairs) := by
  induction pairs with
  | nil =>
    intro suffix acc _ _
    simp [rleEncodePairs, rleExpand]
  | cons p rest ih =>
    obtain ⟨c, v⟩ := p
    intro suffix acc hp hlen
    obtain ⟨hc, hv⟩ := hp (c, v) (List.mem_cons_self _ _)
    simp only at hc hv
    have hexp : rleExpand ((c, v) :: rest) = List.replicate c v ++ rleExpand rest := by
      simp [rleExpand]
    have henc : rleEncodePairs w ((c, v) :: rest) ++ suffix
        = c :: (leEncode w v ++ (rleEncodePairs w rest ++ suffix)) := by
      simp [rleEncodePairs]
    rw [henc, rleGo_cons]
    have hroom : acc.length < n := by
      rw [hexp, List.length_append, List.length_replicate] at hlen
      omega
    rw [if_pos hroom, if_neg (by omega : ¬ c = 0)]
    have htake : (leEncode w v ++ (rleEncodePairs w rest ++ suffix)).take w = leEncode w v := by
      have h := List.take_left (leEncode w v) (rleEncodePairs w rest ++ suffix)
      rwa [leEncode_length] at h
    have hdrop : (leEncode w v ++ (rleEncodePairs w rest ++ suffix)).drop w
        = rleEncodePairs w rest ++ suffix := by
      have h := List.drop_left (leEncode w v) (rleEncodePairs w rest ++ suffix)
      rwa [leEncode_length] at h
    have hlen2 : (rleExpand ((c, v) :: rest)).length
        = c + (rleExpand rest).length := by
      rw [hexp, List.length_append, List.length_replicate]
    rw [htake, hdrop, if_neg (by rw [leEncode_length]; omega), leDecode_leEncode hv,
      ih suffix (acc ++ List.replicate c v)
        (fun q hq => hp q (List.mem_cons_of_mem _ hq))
        (by simp only [List.length_append, List.length_replicate]; omega),
      hexp, List.append_assoc]

/-- Length bound on the RLE output: each accepted pair appends at most 255
samples, and a pair is only accepted while the output is shorter than `n`. -/
theorem rleGo_length_le (w n : Nat) :
    ∀ (data acc : List Nat), (∀ b ∈ data, b ≤ 255) →
      (rleGo w n data acc).length ≤ max acc.length (n + 254)
  | [], acc, _ => by rw [rleGo_nil]; exact le_max_left _ _
  | count :: rest, acc, h => by
    rw [rleGo_cons]
    split
    · split
      · exact le_max_left _ _
      · split
        · exact le_max_left _ _
        · have hcount : count ≤ 255 := h count (List.mem_cons_self _ _)
          have hrec := rleGo_length_le w n (rest.drop w)
            (acc ++ List.replicate count (leDecode (rest.take w)))
            (fun b hb => h b (List.mem_cons_of_mem _ (List.mem_of_mem_drop hb)))
          refine le_trans hrec ?_
          simp only [List.length_append, List.length_replicate]
          omega
    · exact le_max_left _ _
termination_by data => data.length
decreasing_by
  simp only [List.length_drop, List.length_cons]
  omega

/-! ### Tag-table lemmas -/

theorem coordSystems_eq_none {b : Nat} (hb : 3 < b) : coordSystems b = none := by
  have hne : ∀ c, c < 4 → b ≠ c := by omega
  unfold coordSystems
  simp only [hne 0 (by omega), hne 1 (by omega), hne 2 (by omega), hne 3 (by omega),
    if_false]

theorem dataTypes_eq_none {b : Nat} (hb : 7 < b) : dataTypes b = none := by
  have hne : ∀ c, c < 8 → b ≠ c := by omega
  unfold dataTypes
  simp only [hne 0 (by omega), hne 1 (by omega), hne 2 (by omega), hne 3 (by omega),
    hne 4 (by omega), hne 5 (by omega), hne 6 (by omega), hne 7 (by omega), if_false]

theorem dtypeMapGet_of_long {s : String} (hs : 8 ≤ s.length) : dtypeMapGet s = .uint8 := by
  unfold dtypeMapGet
  rw [if_neg (by intro h; rw [h] at hs; exact absurd hs (by decide)),
    if_neg (by intro h; rw [h] at hs; exact absurd hs (by decide)),
    if_neg (by intro h; rw [h] at hs; exact absurd hs (by decide)),
    if_neg (by intro h; rw [h] at hs; exact absurd hs (by decide)),
    if_neg (by intro h; rw [h] at hs; exact absurd hs (by decide)),
    if_neg (by intro h; rw [h] at hs; exact absurd hs (by decide)),
    if_neg (by intro h; rw [h] at hs; exact absurd hs (by decide)),
    if_neg (by intro h; rw [h] at hs; exact absurd hs (by decide))]

theorem dtypeWidth_unknown (t : String) : dtypeWidth ("unknown_" ++ t) = 1 := by
  have hlen : 8 ≤ ("unknown_" ++ t).length := by
    rw [String.length_append]
    have h8 : ("unknown_" : String).length = 8 := by decide
    omega
  rw [dtypeWidth, dtypeMapGet_of_long hlen, itemsize]

/-! ### Claim theorems -/

/-- C6: for every byte value 0-255 at the coordinate-system tag position and
the data-type tag position, decoding is total: values 0-3 map to
cartesian/toroidal/spherical/cylindrical, values 0-7 map to
uint8/uint16/uint32/int8/int16/int32/float32/float64, every other value maps
to the label `unknown_<value>`, and volume decoding treats an unknown data
type as uint8 (byte width 1). -/
theorem tag_decoding_total (b : Nat) (_hb : b < 256) :
    (coordName 0 = "cartesian" ∧ coordName 1 = "toroidal" ∧
      coordName 2 = "spherical" ∧ coordName 3 = "cylindrical") ∧
    (3 < b → coordName b = "unknown_" ++ toString b) ∧
    (dataTypeName 0 = "uint8" ∧ dataTypeName 1 = "uint16" ∧
      dataTypeName 2 = "uint32" ∧ dataTypeName 3 = "int8" ∧
      dataTypeName 4 = "int16" ∧ dataTypeName 5 = "int32" ∧
      dataTypeName 6 = "float32" ∧ dataTypeName 7 = "float64") ∧
    (7 < b → dataTypeName b = "unknown_" ++ toString b) ∧
    (7 < b → dtypeWidth (dataTypeName b) = 1) := by
  refine ⟨by decide, fun h => ?_, by decide, fun h => ?_, fun h => ?_⟩
  · rw [coordName, coordSystems_eq_none h, Option.getD_none]
  · rw [dataTypeName, dataTypes_eq_none h, Option.getD_none]
  · rw [dataTypeName, dataTypes_eq_none h, Option.getD_none, dtypeWidth_unknown]

/-- C6 witness: the tag byte 200 is out of both enumerations and falls back
to the synthesized label. -/
theorem tag_decoding_total_witness :
    (200 : Nat) < 256 ∧ coordName 200 = "unknown_" ++ toString (200 : Nat) :=
  ⟨by decide, (tag_decoding_total 200 (by decide)).2.1 (by decide)⟩

/-- C10: when the declared dimensions give an expected sample count of zero,
volume parsing succeeds with an empty (zero-size) flat buffer and the
`volume_data_missing` flag is never set, for every payload and either
compression setting. -/
theorem zero_voxel_count_no_missing_flag (dims : Vec3) (dataTypeStr : String)
    (compressed : Bool) (payload : List Nat)
    (h : dims.x * dims.y * dims.z = 0) :
    parseVolumeData dims dataTypeStr compressed payload = .ok (false, []) := by
  simp only [parseVolumeData, decodeFlat, h]
  cases compressed with
  | true =>
    by_cases hp : payload.length > 0
    · have hz : decompressRLE payload (dtypeWidth dataTypeStr) 0 = [] :=
        rleGo_stop _ 0 payload [] (by omega)

      simp [hp, hz]
    · simp [hp]
  | false =>
    simp [npFrombuffer, chunk_nil]

/-- C10 witness: dimensions (0, 5, 7) with an empty payload. -/
theorem zero_voxel_count_no_missing_flag_witness :
    (0 * 5 * 7 : Nat) = 0 ∧
      parseVolumeData ⟨0, 5, 7⟩ "uint8" false [] = .ok (false, []) :=
  ⟨by decide, zero_voxel_count_no_missing_flag ⟨0, 5, 7⟩ "uint8" false [] (by decide)⟩

/-- C3: decoding a compressed payload produced by RLE-encoding a flat array
of exactly `x * y * z` samples of the declared element type, with count bytes
in 1-255, yields exactly that flat array back. -/
theorem rle_roundtrip (dataTypeStr : String) (dims : Vec3) (pairs : List (Nat × Nat))
    (hpairs : ∀ p ∈ pairs, 1 ≤ p.1 ∧ p.1 ≤ 255 ∧ p.2 < 256 ^ dtypeWidth dataTypeStr)
    (hN : (rleExpand pairs).length = dims.x * dims.y * dims.z) :
    decompressRLE (rleEncodePairs (dtypeWidth dataTypeStr) pairs)
      (dtypeWidth dataTypeStr) (dims.x * dims.y * dims.z) = rleExpand pairs := by
  unfold decompressRLE
  have h := rleGo_encode (dtypeWidth dataTypeStr) (dims.x * dims.y * dims.z) pairs [] []
    (fun p hp => ⟨(hpairs p hp).1, (hpairs p hp).2.2⟩)
    (by simp [hN])
  rw [List.append_nil] at h
  rw [h, rleGo_nil, List.nil_append]

/-- C3 witness: the uint8 array `[7, 7, 3]` encoded as the pairs
`(2, 7), (1, 3)` decodes back to itself with expected count `3 * 1 * 1`. -/
theorem rle_roundtrip_witness :
    ((1 : Nat) ≤ 2 ∧ (2 : Nat) ≤ 255 ∧ 7 < 256 ^ dtypeWidth "uint8") ∧
    (rleExpand [(2, 7), (1, 3)]).length = 3 * 1 * 1 ∧
    decompressRLE (rleEncodePairs (dtypeWidth "uint8") [(2, 7), (1, 3)])
      (dtypeWidth "uint8") (3 * 1 * 1) = rleExpand [(2, 7), (1, 3)] :=
  ⟨by decide, by decide,
    rle_roundtrip "uint8" ⟨3, 1, 1⟩ [(2, 7), (1, 3)] (by decide) (by decide)⟩

/-- C4 counterexample: with expected count `1 * 1 * 1 = 1` and compressed
input `[2, 7]`, the decoded flat buffer is `[7, 7]`: the final pair is
appended in full, so the output length 2 exceeds the expected count 1. -/
theorem rle_overshoot_counterexample :
    decompressRLE [2, 7] 1 (1 * 1 * 1) = [7, 7] ∧
      ¬ (decompressRLE [2, 7] 1 (1 * 1 * 1)).length ≤ 1 * 1 * 1 := by
  have h : decompressRLE [2, 7] 1 (1 * 1 * 1) = [7, 7] := by
    unfold decompressRLE
    rw [rleGo_cons]
    norm_num [leDecode, rleGo_nil, List.replicate]
  exact ⟨h, by rw [h]; decide⟩

/-- C4 amended: the decoded flat buffer has length at most `x * y * z + 254`:
no new pair is started once the output has reached the expected count, but
the final pair is appended in full and can overshoot by up to 254 samples. -/
theorem rle_output_length_bound (data : List Nat) (w : Nat) (dims : Vec3)
    (hbytes : ∀ b ∈ data, b ≤ 255) :
    (decompressRLE data w (dims.x * dims.y * dims.z)).length
      ≤ dims.x * dims.y * dims.z + 254 := by
  have h := rleGo_length_le w (dims.x * dims.y * dims.z) data [] hbytes
  simpa using h

/-- C4 amended witness: input `[3, 9]`, element width 1, dimensions (1,1,1). -/
theorem rle_output_length_bound_witness :
    ((3 : Nat) ≤ 255 ∧ (9 : Nat) ≤ 255) ∧
      (decompressRLE [3, 9] 1
        ((⟨1, 1, 1⟩ : Vec3).x * (⟨1, 1, 1⟩ : Vec3).y * (⟨1, 1, 1⟩ : Vec3).z)).length
        ≤ (⟨1, 1, 1⟩ : Vec3).x * (⟨1, 1, 1⟩ : Vec3).y * (⟨1, 1, 1⟩ : Vec3).z + 254 :=
  ⟨by decide, rle_output_length_bound [3, 9] 1 ⟨1, 1, 1⟩ (by decide)⟩

/-- C5: RLE decoding never fails on malformed endings: an empty input yields
an empty buffer; a leading count byte of 0 terminates decoding immediately;
and a trailing value field shorter than the element width stops decoding with
the partial pair discarded, keeping everything decoded so far. -/
theorem rle_malformed_endings :
    (∀ w n, decompressRLE [] w n = []) ∧
    (∀ rest w n, decompressRLE (0 :: rest) w n = []) ∧
    (∀ w n pairs c tail,
      (∀ p ∈ pairs, 1 ≤ p.1 ∧ p.1 ≤ 255 ∧ p.2 < 256 ^ w) →
      c ≠ 0 → tail.length < w → (rleExpand pairs).length ≤ n →
      decompressRLE (rleEncodePairs w pairs ++ c :: tail) w n = rleExpand pairs) := by
  refine ⟨fun w n => rleGo_nil w n [],
    fun rest w n => ?_,
    fun w n pairs c tail hp hc htail hlen => ?_⟩
  · unfold decompressRLE
    rw [rleGo_cons]
    by_cases h : ([] : List Nat).length < n
    · rw [if_pos h, if_pos rfl]
    · rw [if_neg h]
  · unfold decompressRLE
    rw [rleGo_encode w n pairs (c :: tail) []
      (fun p hp2 => ⟨(hp p hp2).1, (hp p hp2).2.2⟩) (by simpa using hlen),
      List.nil_append, rleGo_cons]
    have htake : ((tail.take w).length < w) := by
      rw [List.length_take]
      omega
    by_cases hroom : (rleExpand pairs).length < n
    · rw [if_pos hroom, if_neg hc, if_pos htake]
    · rw [if_neg hroom]

theorem itemsize_pos (d : NpDtype) : 0 < itemsize d := by
  cases d <;> decide

theorem dtypeWidth_pos (s : String) : 0 < dtypeWidth s :=
  itemsize_pos (dtypeMapGet s)

theorem flatMap_leEncode_length (w : Nat) (elems : List Nat) :
    (elems.flatMap (leEncode w)).length = elems.length * w := by
  induction elems with
  | nil => simp
  | cons v rest ih =>
    rw [List.flatMap_cons, List.length_append, leEncode_length, ih, List.length_cons]
    ring

theorem chunk_flatMap_leEncode (w : Nat) (hw : w ≠ 0) (elems : List Nat)
    (hval : ∀ v ∈ elems, v < 256 ^ w) :
    (chunk w (elems.flatMap (leEncode w))).map leDecode = elems := by
  induction elems with
  | nil => simp [chunk_nil]
  | cons v rest ih =>
    rw [List.flatMap_cons, chunk_append w hw _ _ (leEncode_length w v), List.map_cons,
      leDecode_leEncode (hval v (List.mem_cons_self _ _)),
      ih (fun q hq => hval q (List.mem_cons_of_mem _ hq))]

theorem npFrombuffer_flatMap (w : Nat) (hw : w ≠ 0) (elems : List Nat)
    (hval : ∀ v ∈ elems, v < 256 ^ w) :
    npFrombuffer (elems.flatMap (leEncode w)) w = .ok elems := by
  unfold npFrombuffer
  rw [flatMap_leEncode_length,
    if_pos (Nat.mul_mod_left elems.length w),
    chunk_flatMap_leEncode w hw elems hval]

theorem volAt_reshape3 (dims : Vec3) (flat : List Nat)
    (hlen : flat.length = dims.x * dims.y * dims.z)
    (ix iy iz : Nat) (hx : ix < dims.x) (hy : iy < dims.y) (hz : iz < dims.z) :
    volAt (reshape3 dims flat) ix iy iz
      = flat.getD ((ix * dims.y + iy) * dims.z + iz) 0 := by
  obtain ⟨x, y, z⟩ := dims
  simp only at hx hy hz hlen
  have hy0 : y ≠ 0 := by omega
  have hz0 : z ≠ 0 := by omega
  have hclen : (chunk z flat).length = x * y := chunk_length z hz0 (x * y) flat hlen
  have hb : ix * y + iy < x * y := by
    calc ix * y + iy < ix * y + y := by omega
      _ = (ix + 1) * y := by ring
      _ ≤ x * y := Nat.mul_le_mul_right y (by omega)
  simp only [volAt, reshape3]
  rw [chunk_getD y hy0 ix x (chunk z flat) [] hclen hx,
    getD_take_of_lt _ _ _ _ hy, getD_drop,
    chunk_getD z hz0 (ix * y + iy) (x * y) flat [] hlen hb,
    getD_take_of_lt _ _ _ _ hz, getD_drop]

/-- C7: an uncompressed payload of exactly `x * y * z` elements of the
declared type decodes with no `volume_data_missing` flag to exactly those
elements, and the C-order reshape to `(x, y, z)` places the element at
`volume[ix, iy, iz]` at flat index `(ix * y + iy) * z + iz`. -/
theorem uncompressed_exact_payload (dims : Vec3) (dataTypeStr : String) (elems : List Nat)
    (hlen : elems.length = dims.x * dims.y * dims.z)
    (hval : ∀ v ∈ elems, v < 256 ^ dtypeWidth dataTypeStr) :
    parseVolumeData dims dataTypeStr false
        (elems.flatMap (leEncode (dtypeWidth dataTypeStr))) = .ok (false, elems) ∧
    (∀ ix iy iz, ix < dims.x → iy < dims.y → iz < dims.z →
      volAt (reshape3 dims elems) ix iy iz
        = elems.getD ((ix * dims.y + iy) * dims.z + iz) 0) := by
  constructor
  · have hw := dtypeWidth_pos dataTypeStr
    have hpl : (elems.flatMap (leEncode (dtypeWidth dataTypeStr))).length
        = dims.x * dims.y * dims.z * dtypeWidth dataTypeStr := by
      rw [flatMap_leEncode_length, hlen]
    simp only [parseVolumeData, decodeFlat, Bool.false_eq_true, if_false]
    rw [← hpl, List.take_length, npFrombuffer_flatMap _ (by omega) elems hval]
    simp [hlen]
  · intro ix iy iz hx hy hz
    exact volAt_reshape3 dims elems hlen ix iy iz hx hy hz

/-- C7 witness: dimensions (2,1,1), uint8 payload `[10, 20]`. -/
theorem uncompressed_exact_payload_witness :
    ([10, 20] : List Nat).length = (⟨2, 1, 1⟩ : Vec3).x * (⟨2, 1, 1⟩ : Vec3).y *
        (⟨2, 1, 1⟩ : Vec3).z ∧
    parseVolumeData ⟨2, 1, 1⟩ "uint8" false
        (([10, 20] : List Nat).flatMap (leEncode (dtypeWidth "uint8")))
      = .ok (false, [10, 20]) ∧
    volAt (reshape3 ⟨2, 1, 1⟩ [10, 20]) 1 0 0
      = ([10, 20] : List Nat).getD ((1 * (⟨2, 1, 1⟩ : Vec3).y + 0) * (⟨2, 1, 1⟩ : Vec3).z + 0) 0 :=
  ⟨by decide,
    (uncompressed_exact_payload ⟨2, 1, 1⟩ "uint8" [10, 20] (by decide) (by decide)).1,
    (uncompressed_exact_payload ⟨2, 1, 1⟩ "uint8" [10, 20] (by decide) (by decide)).2
      1 0 0 (by decide) (by decide) (by decide)⟩

/-- C5 witness: a valid pair `(2, 5)` followed by the truncated pair `1`
(count byte with no value byte) decodes to `[5, 5]` without error. -/
theorem rle_malformed_endings_witness :
    ((1 : Nat) ≤ 2 ∧ (2 : Nat) ≤ 255 ∧ 5 < 256 ^ 1) ∧ (1 : Nat) ≠ 0 ∧
      ([] : List Nat).length < 1 ∧ (rleExpand [(2, 5)]).length ≤ 3 ∧
      decompressRLE (rleEncodePairs 1 [(2, 5)] ++ 1 :: []) 1 3 = rleExpand [(2, 5)] :=
  ⟨by decide, by decide, by decide, by decide,
    rle_malformed_endings.2.2 1 3 [(2, 5)] 1 [] (by decide) (by decide) (by decide)
      (by decide)⟩

/-! ### File-read plumbing lemmas -/

theorem readAt_length_of_le {file : List Nat} {o k : Nat} (h : o + k ≤ file.length) :
    (readAt file o k).length = k := by
  simp only [readAt, List.length_take, List.length_drop]
  omega

theorem readAt_take (file : List Nat) (o a b : Nat) (h : a ≤ b) :
    (readAt file o b).take a = readAt file o a := by
  simp only [readAt, List.take_take, Nat.min_eq_left h]

theorem readAt_drop (file : List Nat) (o a b : Nat) :
    (readAt file o b).drop a = readAt file (o + a) (b - a) := by
  simp only [readAt, List.drop_take, List.drop_drop]

theorem readAt_set_outside (file : List Nat) (i v o k : Nat) (h : i < o ∨ o + k ≤ i) :
    readAt (file.set i v) o k = readAt file o k := by
  apply List.ext_getElem?
  intro j
  simp only [readAt]
  rw [List.getElem?_take, List.getElem?_take]
  by_cases hj : j < k
  · rw [if_pos hj, if_pos hj, List.getElem?_drop, List.getElem?_drop,
      List.getElem?_set_ne (show i ≠ o + j by omega)]
  · rw [if_neg hj, if_neg hj]

theorem drop_set_below (file : List Nat) (i v n : Nat) (h : i < n) :
    (file.set i v).drop n = file.drop n := by
  apply List.ext_getElem?
  intro j
  rw [List.getElem?_drop, List.getElem?_drop, List.getElem?_set_ne (show i ≠ n + j by omega)]

theorem ok_bind {α β : Type} (v : α) (f : α → Except PyError β) :
    ((Except.ok v : Except PyError α) >>= f) = f v := rfl

theorem error_bind {α β : Type} (e : PyError) (f : α → Except PyError β) :
    ((Except.error e : Except PyError α) >>= f) = .error e := rfl

theorem unpackU32_ok {bs : List Nat} (h : bs.length = 4) :
    unpackU32 bs = .ok (leDecode bs) := by
  unfold unpackU32
  rw [if_pos h]

theorem unpackU8_ok {bs : List Nat} (h : bs.length = 1) :
    unpackU8 bs = .ok (leDecode bs) := by
  unfold unpackU8
  rw [if_pos h]

theorem unpackU32x3_ok {bs : List Nat} (h : bs.length = 12) :
    unpackU32x3 bs
      = .ok ⟨leDecode (bs.take 4), leDecode ((bs.drop 4).take 4), leDecode (bs.drop 8)⟩ := by
  unfold unpackU32x3
  rw [if_pos h]

theorem unpackF32x3_ok {bs : List Nat} (h : bs.length = 12) :
    unpackF32x3 bs
      = .ok ⟨leDecode (bs.take 4), leDecode ((bs.drop 4).take 4), leDecode (bs.drop 8)⟩ := by
  unfold unpackF32x3
  rw [if_pos h]

theorem unpackU32_shape (bs : List Nat) :
    unpackU32 bs = .ok (leDecode bs) ∨ unpackU32 bs = .error (.structError "<I") := by
  unfold unpackU32
  split
  · exact Or.inl rfl
  · exact Or.inr rfl

theorem unpackU8_shape (bs : List Nat) :
    unpackU8 bs = .ok (leDecode bs) ∨ unpackU8 bs = .error (.structError "<B") := by
  unfold unpackU8
  split
  · exact Or.inl rfl
  · exact Or.inr rfl

theorem unpackU32x3_shape (bs : List Nat) :
    unpackU32x3 bs
        = .ok ⟨leDecode (bs.take 4), leDecode ((bs.drop 4).take 4), leDecode (bs.drop 8)⟩
      ∨ unpackU32x3 bs = .error (.structError "<III") := by
  unfold unpackU32x3
  split
  · exact Or.inl rfl
  · exact Or.inr rfl

theorem unpackF32x3_shape (bs : List Nat) :
    unpackF32x3 bs
        = .ok ⟨leDecode (bs.take 4), leDecode ((bs.drop 4).take 4), leDecode (bs.drop 8)⟩
      ∨ unpackF32x3 bs = .error (.structError "<fff") := by
  unfold unpackF32x3
  split
  · exact Or.inl rfl
  · exact Or.inr rfl

/-- The header record decoded from a file with at least 252 bytes. -/
def headerOf (file : List Nat) (version : String) : Metadata :=
  { version := version
    frameCount := leDecode (readAt file 16 4)
    dimensions := ⟨leDecode (readAt file 20 4), leDecode (readAt file 24 4),
      leDecode (readAt file 28 4)⟩
    spacing := ⟨leDecode (readAt file 32 4), leDecode (readAt file 36 4),
      leDecode (readAt file 40 4)⟩
    coordinateSystem := coordName (leDecode (readAt file 44 1))
    dataType := dataTypeName (leDecode (readAt file 45 1))
    compressed := decide (leDecode (readAt file 46 1) ≠ 0)
    patientName := rstripNull (readAt file 48 64)
    studyDate := rstripNull (readAt file 112 16)
    studyTime := rstripNull (readAt file 128 16)
    acquisitionMode := rstripNull (readAt file 144 32)
    systemName := rstripNull (readAt file 176 32)
    probeName := rstripNull (readAt file 208 32)
    origin := ⟨leDecode (readAt file 240 4), leDecode (readAt file 244 4),
      leDecode (readAt file 248 4)⟩
    volumeDataMissing := false }

theorem parseHeader_ok (file : List Nat) (version : String) (h : 252 ≤ file.length) :
    parseHeader file version = .ok (headerOf file version) := by
  unfold parseHeader
  rw [unpackU32_ok (readAt_length_of_le (by omega)), ok_bind,
    unpackU32x3_ok (readAt_length_of_le (by omega)), ok_bind,
    unpackF32x3_ok (readAt_length_of_le (by omega)), ok_bind,
    unpackU8_ok (readAt_length_of_le (by omega)), ok_bind,
    unpackU8_ok (readAt_length_of_le (by omega)), ok_bind,
    unpackU8_ok (readAt_length_of_le (by omega)), ok_bind,
    unpackF32x3_ok (readAt_length_of_le (by omega)), ok_bind]
  rw [readAt_take file 20 4 12 (by omega), readAt_drop file 20 4 12,
    readAt_take file (20 + 4) 4 (12 - 4) (by omega), readAt_drop file 20 8 12,
    readAt_take file 32 4 12 (by omega), readAt_drop file 32 4 12,
    readAt_take file (32 + 4) 4 (12 - 4) (by omega), readAt_drop file 32 8 12,
    readAt_take file 240 4 12 (by omega), readAt_drop file 240 4 12,
    readAt_take file (240 + 4) 4 (12 - 4) (by omega), readAt_drop file 240 8 12]
  norm_num [headerOf]

theorem parseHeader_shape (file : List Nat) (version : String) :
    (∃ md, parseHeader file version = .ok md ∧ md.version = version)
      ∨ (∃ s, parseHeader file version = .error (.structError s)) := by
  unfold parseHeader
  rcases unpackU32_shape (readAt file 16 4) with h1 | h1 <;> rw [h1]
  case inr => exact Or.inr ⟨"<I", rfl⟩
  rw [ok_bind]
  rcases unpackU32x3_shape (readAt file 20 12) with h2 | h2 <;> rw [h2]
  case inr => exact Or.inr ⟨"<III", rfl⟩
  rw [ok_bind]
  rcases unpackF32x3_shape (readAt file 32 12) with h3 | h3 <;> rw [h3]
  case inr => exact Or.inr ⟨"<fff", rfl⟩
  rw [ok_bind]
  rcases unpackU8_shape (readAt file 44 1) with h4 | h4 <;> rw [h4]
  case inr => exact Or.inr ⟨"<B", rfl⟩
  rw [ok_bind]
  rcases unpackU8_shape (readAt file 45 1) with h5 | h5 <;> rw [h5]
  case inr => exact Or.inr ⟨"<B", rfl⟩
  rw [ok_bind]
  rcases unpackU8_shape (readAt file 46 1) with h6 | h6 <;> rw [h6]
  case inr => exact Or.inr ⟨"<B", rfl⟩
  rw [ok_bind]
  rcases unpackF32x3_shape (readAt file 240 12) with h7 | h7 <;> rw [h7]
  case inr => exact Or.inr ⟨"<fff", rfl⟩
  rw [ok_bind]
  exact Or.inl ⟨_, rfl, rfl⟩

theorem decodeFlat_compressed_ok (n w : Nat) (payload : List Nat) :
    ∃ flat, decodeFlat n w true payload = .ok flat := by
  by_cases hp : payload.length > 0
  · exact ⟨decompressRLE payload w n, by simp [decodeFlat, hp]⟩
  · exact ⟨[], by simp [decodeFlat, hp]⟩

theorem decodeFlat_uncompressed_eq (n w : Nat) (payload : List Nat)
    (h : (payload.take (n * w)).length % w = 0) :
    decodeFlat n w false payload = .ok ((chunk w (payload.take (n * w))).map leDecode) := by
  simp only [decodeFlat, Bool.false_eq_true, if_false, npFrombuffer]
  rw [if_pos h]

theorem decodeFlat_error_shape (n w : Nat) (compressed : Bool) (payload : List Nat)
    (e : PyError) (h : decodeFlat n w compressed payload = .error e) :
    e = .bufferError := by
  cases compressed with
  | true =>
    rcases decodeFlat_compressed_ok n w payload with ⟨flat, hflat⟩
    rw [hflat] at h
    cases h
  | false =>
    simp only [decodeFlat, Bool.false_eq_true, if_false, npFrombuffer] at h
    split at h
    · cases h
    · injection h with h
      exact h.symm

theorem parseVolumeData_isOk_of_decodeFlat_ok (dims : Vec3) (dataTypeStr : String)
    (compressed : Bool) (payload flat : List Nat)
    (h : decodeFlat (dims.x * dims.y * dims.z) (dtypeWidth dataTypeStr) compressed payload
      = .ok flat) :
    ∃ r, parseVolumeData dims dataTypeStr compressed payload = .ok r := by
  simp only [parseVolumeData]
  rw [h]
  dsimp only
  split
  · exact ⟨_, rfl⟩
  · exact ⟨_, rfl⟩

theorem parseVolumeData_error_shape (dims : Vec3) (dataTypeStr : String)
    (compressed : Bool) (payload : List Nat) (e : PyError)
    (h : parseVolumeData dims dataTypeStr compressed payload = .error e) :
    e = .bufferError := by
  rcases hdf : decodeFlat (dims.x * dims.y * dims.z) (dtypeWidth dataTypeStr)
      compressed payload with e' | flat
  · simp only [parseVolumeData] at h
    rw [hdf] at h
    injection h with h
    rw [← h]
    exact decodeFlat_error_shape _ _ _ _ _ hdf
  · simp only [parseVolumeData] at h
    rw [hdf] at h
    dsimp only at h
    split at h <;> cases h

theorem asciiDecode_all_ok {bs : List Nat} (h : ∀ b ∈ bs, b < 128) :
    asciiDecode bs = .ok (String.mk (bs.map Char.ofNat)) := by
  unfold asciiDecode
  rw [if_pos (List.all_eq_true.mpr fun b hb => decide_eq_true (h b hb))]

theorem asciiDecode_all_error {bs : List Nat} (h : ¬ ∀ b ∈ bs, b < 128) :
    asciiDecode bs = .error .unicodeError := by
  unfold asciiDecode
  rw [if_neg]
  intro hall
  exact h fun b hb => of_decide_eq_true (List.all_eq_true.mp hall b hb)

/-! ### Concrete test files -/

set_option maxRecDepth 1000000

/-- Header builder for concrete files: magic, version `1.0`, separator space,
3 reserved bytes, frame count 1, the given 12 dimension bytes, zero spacing,
cartesian coordinate byte, the given data-type and compression bytes, and
zeros from offset 47 through offset 255. -/
def mkHeader (dimsBytes : List Nat) (dataTypeByte compressionByte : Nat) : List Nat :=
  MAGIC ++ [49, 46, 48] ++ [32] ++ [0, 0, 0] ++ [1, 0, 0, 0] ++ dimsBytes
    ++ List.replicate 12 0 ++ [0] ++ [dataTypeByte] ++ [compressionByte]
    ++ List.replicate 209 0

/-- Dimensions (1,1,1), data type uint16, uncompressed, one payload byte:
a short read that is not a multiple of the 2-byte element width. -/
def shortUint16File : List Nat :=
  mkHeader [1, 0, 0, 0, 1, 0, 0, 0, 1, 0, 0, 0] 1 0 ++ [0]

/-- Dimensions (2,1,1), data type uint8, compressed, RLE payload `[1, 5]`. -/
def sampleCompressedFile : List Nat :=
  mkHeader [2, 0, 0, 0, 1, 0, 0, 0, 1, 0, 0, 0] 0 1 ++ [1, 5]

/-- A 256-byte file with valid magic whose version bytes start with `0xFF`. -/
def nonAsciiVersionFile : List Nat :=
  MAGIC ++ [255, 48, 48] ++ List.replicate 244 0

/-- C1 counterexample: `shortUint16File` has a flat decoded buffer shorter
than the expected sample count (a short uncompressed read), yet construction
raises the numpy buffer-size error instead of recovering with
`volume_data_missing`, because the single available payload byte is not a
multiple of the 2-byte element width. -/
theorem short_misaligned_payload_raises :
    loadFile shortUint16File = .error .bufferError := by decide

/-- C1 amended: whenever the flat-decode step itself succeeds (always, for
compressed payloads; for uncompressed reads exactly when the byte count read
is a multiple of the element width) and the flat buffer length differs from
`x * y * z`, construction does not raise: the metadata gains
`volume_data_missing = true` and the volume is the zero-filled full-shape
array. -/
theorem payload_mismatch_recovered :
    (∀ numVoxels w payload, ∃ flat, decodeFlat numVoxels w true payload = .ok flat) ∧
    (∀ (dims : Vec3) (dataTypeStr : String) (compressed : Bool) (payload flat : List Nat),
      decodeFlat (dims.x * dims.y * dims.z) (dtypeWidth dataTypeStr) compressed payload
          = .ok flat →
      flat.length ≠ dims.x * dims.y * dims.z →
      parseVolumeData dims dataTypeStr compressed payload
        = .ok (true, List.replicate (dims.x * dims.y * dims.z) 0)) := by
  constructor
  · intro n w payload
    exact decodeFlat_compressed_ok n w payload
  · intro dims dataTypeStr compressed payload flat hdec hne
    simp only [parseVolumeData]
    rw [hdec]
    dsimp only
    rw [if_neg hne]

/-- C1 amended witness: dimensions (2,1,1), uint8, uncompressed, empty
payload: the aligned short read decodes to an empty buffer and is recovered
with the flag and a zero-filled volume. -/
theorem payload_mismatch_recovered_witness :
    decodeFlat ((⟨2, 1, 1⟩ : Vec3).x * (⟨2, 1, 1⟩ : Vec3).y * (⟨2, 1, 1⟩ : Vec3).z)
        (dtypeWidth "uint8") false [] = .ok [] ∧
    ([] : List Nat).length ≠ (⟨2, 1, 1⟩ : Vec3).x * (⟨2, 1, 1⟩ : Vec3).y *
        (⟨2, 1, 1⟩ : Vec3).z ∧
    parseVolumeData ⟨2, 1, 1⟩ "uint8" false [] = .ok (true, List.replicate 2 0) := by
  have hdf : decodeFlat 2 (dtypeWidth "uint8") false [] = .ok [] := by
    rw [decodeFlat_uncompressed_eq 2 (dtypeWidth "uint8") [] (by decide)]
    rw [List.take_nil, chunk_nil, List.map_nil]
  exact ⟨hdf, by decide,
    payload_mismatch_recovered.2 ⟨2, 1, 1⟩ "uint8" false [] [] hdf (by decide)⟩

/-- C2 counterexample: the 9-byte file consisting of exactly the magic bytes
has a valid signature, yet construction raises a `struct.error` (a third
error kind) when unpacking the frame count, instead of completing. -/
theorem magic_only_file_raises :
    kretzLoad (some MAGIC) = .error (.structError "<I") := by decide

/-- C2 amended: construction raises a not-found error when the path does not
exist (before any read) and a format error naming the actual signature when
the first 9 bytes are not `KRETZFILE`; moreover every existing file that is
at least 252 bytes long, has a valid magic, ASCII bytes at offsets 9-11, and
(when the compression byte is zero) an element-aligned uncompressed payload
read, completes construction without raising.  (Outside those conditions,
struct/unicode/buffer decode errors are possible, as the counterexample
shows.) -/
theorem construction_error_classes :
    (kretzLoad none = .error .fileNotFound) ∧
    (∀ file, readAt file 0 9 ≠ MAGIC →
      loadFile file = .error (.formatError (readAt file 0 9))) ∧
    (∀ file, 252 ≤ file.length → readAt file 0 9 = MAGIC →
      (∀ b ∈ readAt file 9 3, b < 128) →
      (leDecode (readAt file 46 1) = 0 →
        ((file.drop 256).take
            (leDecode (readAt file 20 4) * leDecode (readAt file 24 4) *
              leDecode (readAt file 28 4) *
              dtypeWidth (dataTypeName (leDecode (readAt file 45 1))))).length %
          dtypeWidth (dataTypeName (leDecode (readAt file 45 1))) = 0) →
      ∃ md flat, loadFile file = .ok (md, flat)) := by
  refine ⟨rfl, fun file h => ?_, fun file h252 hm hv halign => ?_⟩
  · simp only [loadFile]
    rw [if_pos h]
  · simp only [loadFile]
    rw [if_neg (by simp [hm])]
    rw [asciiDecode_all_ok hv]
    dsimp only
    rw [parseHeader_ok file _ h252]
    dsimp only
    simp only [headerOf]
    by_cases hc : leDecode (readAt file 46 1) = 0
    · have hcb : decide (leDecode (readAt file 46 1) ≠ 0) = false := by simp [hc]
      rw [hcb]
      obtain ⟨⟨missing, flat⟩, hr⟩ :=
        parseVolumeData_isOk_of_decodeFlat_ok
          ⟨leDecode (readAt file 20 4), leDecode (readAt file 24 4),
            leDecode (readAt file 28 4)⟩
          (dataTypeName (leDecode (readAt file 45 1))) false (file.drop 256) _
          (decodeFlat_uncompressed_eq _ _ _ (halign hc))
      rw [hr]
      exact ⟨_, _, rfl⟩
    · have hcb : decide (leDecode (readAt file 46 1) ≠ 0) = true := by simp [hc]
      rw [hcb]
      obtain ⟨flat, hflat⟩ := decodeFlat_compressed_ok
        ((⟨leDecode (readAt file 20 4), leDecode (readAt file 24 4),
            leDecode (readAt file 28 4)⟩ : Vec3).x *
          (⟨leDecode (readAt file 20 4), leDecode (readAt file 24 4),
            leDecode (readAt file 28 4)⟩ : Vec3).y *
          (⟨leDecode (readAt file 20 4), leDecode (readAt file 24 4),
            leDecode (readAt file 28 4)⟩ : Vec3).z)
        (dtypeWidth (dataTypeName (leDecode (readAt file 45 1)))) (file.drop 256)
      obtain ⟨⟨missing, fl⟩, hr⟩ :=
        parseVolumeData_isOk_of_decodeFlat_ok _ _ true _ flat hflat
      rw [hr]
      exact ⟨_, _, rfl⟩

/-- C2 amended witness: a compressed 258-byte file with valid magic and
ASCII version constructs successfully. -/
theorem construction_error_classes_witness :
    252 ≤ sampleCompressedFile.length ∧ readAt sampleCompressedFile 0 9 = MAGIC ∧
      ∃ md flat, loadFile sampleCompressedFile = .ok (md, flat) :=
  ⟨by decide, by decide,
    construction_error_classes.2.2 sampleCompressedFile (by decide) (by decide)
      (by decide) (by decide)⟩

/-- C9 counterexample: a file whose version byte at offset 9 is `0xFF` (with
valid magic and a full 256-byte header) raises a unicode decode error: not
every 3-byte value at offsets 9-11 is accepted. -/
theorem nonascii_version_raises :
    loadFile nonAsciiVersionFile = .error .unicodeError := by decide

/-- C9 amended: the 3 bytes at offsets 9-11 are accepted without validation
against any version list provided they are ASCII (each byte < 128), in which
case no unicode error is raised and the decoded string is stored as the
metadata field `version`; bytes that are not ASCII raise a decode error (see
the counterexample); the separator byte at offset 12 is read and discarded,
so the result never depends on its value. -/
theorem version_field_handling :
    (∀ file, (∀ b ∈ readAt file 9 3, b < 128) →
      loadFile file ≠ .error .unicodeError) ∧
    (∀ file md flat, loadFile file = .ok (md, flat) →
      md.version = String.mk ((readAt file 9 3).map Char.ofNat)) ∧
    (∀ file b, loadFile (file.set 12 b) = loadFile file) := by
  refine ⟨fun file hv hcontra => ?_, fun file md flat h => ?_, fun file b => ?_⟩
  · simp only [loadFile] at hcontra
    by_cases hm : readAt file 0 9 ≠ MAGIC
    · rw [if_pos hm] at hcontra
      simp at hcontra
    · rw [if_neg hm] at hcontra
      rw [asciiDecode_all_ok hv] at hcontra
      dsimp only at hcontra
      rcases parseHeader_shape file (String.mk ((readAt file 9 3).map Char.ofNat)) with
        ⟨md', hph, _⟩ | ⟨s, hph⟩
      · rw [hph] at hcontra
        dsimp only at hcontra
        cases hpv : parseVolumeData md'.dimensions md'.dataType md'.compressed
            (file.drop 256) with
        | error e =>
          rw [hpv] at hcontra
          dsimp only at hcontra
          injection hcontra with h2
          have hbe := parseVolumeData_error_shape _ _ _ _ _ hpv
          rw [hbe] at h2
          cases h2
        | ok r =>
          obtain ⟨missing, fl⟩ := r
          rw [hpv] at hcontra
          simp at hcontra
      · rw [hph] at hcontra
        simp at hcontra
  · simp only [loadFile] at h
    by_cases hm : readAt file 0 9 ≠ MAGIC
    · rw [if_pos hm] at h
      simp at h
    · rw [if_neg hm] at h
      by_cases hall : ∀ b ∈ readAt file 9 3, b < 128
      · rw [asciiDecode_all_ok hall] at h
        dsimp only at h
        rcases parseHeader_shape file (String.mk ((readAt file 9 3).map Char.ofNat)) with
          ⟨md', hph, hver⟩ | ⟨s, hph⟩
        · rw [hph] at h
          dsimp only at h
          cases hpv : parseVolumeData md'.dimensions md'.dataType md'.compressed
              (file.drop 256) with
          | error e =>
            rw [hpv] at h
            simp at h
          | ok r =>
            obtain ⟨missing, fl⟩ := r
            rw [hpv] at h
            dsimp only at h
            injection h with h
            rw [Prod.mk.injEq] at h
            rw [← h.1]
            exact hver
        · rw [hph] at h
          simp at h
      · rw [asciiDecode_all_error hall] at h
        simp at h
  · have e3 : ∀ o k, 12 < o → readAt (file.set 12 b) o k = readAt file o k :=
      fun o k ho => readAt_set_outside file 12 b o k (Or.inl ho)
    have eh : ∀ v, parseHeader (file.set 12 b) v = parseHeader file v := by
      intro v
      unfold parseHeader
      simp only [e3 16 4 (by omega), e3 20 12 (by omega), e3 32 12 (by omega),
        e3 44 1 (by omega), e3 45 1 (by omega), e3 46 1 (by omega),
        e3 240 12 (by omega), e3 48 64 (by omega), e3 112 16 (by omega),
        e3 128 16 (by omega), e3 144 32 (by omega), e3 176 32 (by omega),
        e3 208 32 (by omega)]
    simp only [loadFile,
      readAt_set_outside file 12 b 0 9 (Or.inr (by omega)),
      readAt_set_outside file 12 b 9 3 (Or.inr (by omega)),
      drop_set_below file 12 b 256 (by omega), eh]

/-- C9 amended witness: the compressed sample file has ASCII version bytes,
so no unicode error is raised, and overwriting the separator byte at offset
12 with 77 leaves the result unchanged. -/
theorem version_field_handling_witness :
    loadFile sampleCompressedFile ≠ .error .unicodeError ∧
      loadFile (sampleCompressedFile.set 12 77) = loadFile sampleCompressedFile :=
  ⟨version_field_handling.1 sampleCompressedFile (by decide),
    version_field_handling.2.2 sampleCompressedFile 77⟩

/-! ### Reference-semantics model for the accessors

`get_metadata` returns `self.metadata.copy()` and `get_volume` returns
`self.volume.copy()`.  Python `dict.copy()` allocates a new dict object with
the same (key, value) pairs; values that are references to nested dicts stay
shared (a shallow copy), while `ndarray.copy()` duplicates the voxel data.
The heap below makes that reference structure explicit. -/

/-- A Python value stored in the metadata dictionary: immutable scalars and
strings are inlined; a nested dictionary (`dimensions`, `spacing`, `origin`)
is a reference into the heap. -/
inductive PyVal where
  | prim (n : Nat) : PyVal
  | str (s : String) : PyVal
  | dictRef (a : Nat) : PyVal
deriving DecidableEq, Repr

/-- A heap of mutable Python objects: dictionaries (address = index into
`dicts`) and numpy arrays (address = index into `arrays`). -/
structure PyHeap where
  dicts : List (List (String × PyVal))
  arrays : List (List Nat)
deriving DecidableEq, Repr

/-- The entry list of the dictionary at address `a`. -/
def dictEntries (h : PyHeap) (a : Nat) : List (String × PyVal) :=
  h.dicts.getD a []

def lookupKey : List (String × PyVal) → String → Option PyVal
  | [], _ => none
  | (k', v) :: rest, k => if k' = k then some v else lookupKey rest k

/-- `heap[a][k]`. -/
def dictLookup (h : PyHeap) (a : Nat) (k : String) : Option PyVal :=
  lookupKey (dictEntries h a) k

/-- `d[k] = v` on one entry list: replace in place, or append. -/
def setKey : List (String × PyVal) → String → PyVal → List (String × PyVal)
  | [], k, v => [(k, v)]
  | (k', v') :: rest, k, v =>
    if k' = k then (k, v) :: rest else (k', v') :: setKey rest k v

/-- `heap[a][k] = v`: mutate the dictionary object at address `a`. -/
def dictSet (h : PyHeap) (a : Nat) (k : String) (v : PyVal) : PyHeap :=
  { h with dicts := h.dicts.set a (setKey (dictEntries h a) k v) }

/-- Allocate a new dictionary object, returning its fresh address. -/
def dictAlloc (h : PyHeap) (entries : List (String × PyVal)) : PyHeap × Nat :=
  ({ h with dicts := h.dicts ++ [entries] }, h.dicts.length)

/-- The data of the array at address `a`. -/
def arrData (h : PyHeap) (a : Nat) : List Nat :=
  h.arrays.getD a []

/-- Allocate a new array object, returning its fresh address. -/
def arrAlloc (h : PyHeap) (data : List Nat) : PyHeap × Nat :=
  ({ h with arrays := h.arrays ++ [data] }, h.arrays.length)

/-- `arr[i] = v`: mutate the array object at address `a`. -/
def arrSet (h : PyHeap) (a i v : Nat) : PyHeap :=
  { h with arrays := h.arrays.set a ((arrData h a).set i v) }

/-- `KretzFileLoader.get_metadata`: `self.metadata.copy()` - a new dict
object holding the same entry pairs, nested dict references shared. -/
def getMetadataRef (h : PyHeap) (metaAddr : Nat) : PyHeap × Nat :=
  dictAlloc h (dictEntries h metaAddr)

/-- `KretzFileLoader.get_volume`: `self.volume.copy()` - a new array object
holding a copy of the voxel data. -/
def getVolumeRef (h : PyHeap) (volAddr : Nat) : PyHeap × Nat :=
  arrAlloc h (arrData h volAddr)

/-- A loader state after a parse: `self.metadata` is the dict at address 0,
its `dimensions` entry references the dict at address 1, and `self.volume`
is the array at address 0. -/
def sampleLoaderHeap : PyHeap :=
  { dicts := [[("version", .str "1.0"), ("dimensions", .dictRef 1)],
      [("x", .prim 8), ("y", .prim 10), ("z", .prim 12)]],
    arrays := [[1, 2, 3]] }

theorem getD_append_self {α : Type} (l : List α) (e : α) (d : α) :
    (l ++ [e]).getD l.length d = e := by
  rw [List.getD_eq_getElem?_getD, List.getElem?_append_right (Nat.le_refl _)]
  simp

theorem getD_append_left_of_lt {α : Type} (l l' : List α) (a : Nat) (h : a < l.length)
    (d : α) : (l ++ l').getD a d = l.getD a d := by
  rw [List.getD_eq_getElem?_getD, List.getD_eq_getElem?_getD, List.getElem?_append,
    if_pos h]

theorem getD_set_ne {α : Type} (l : List α) (j a : Nat) (x : α) (d : α) (h : j ≠ a) :
    (l.set j x).getD a d = l.getD a d := by
  rw [List.getD_eq_getElem?_getD, List.getD_eq_getElem?_getD, List.getElem?_set_ne h]

/-- C8 counterexample: on the sample loader state, the map returned by the
metadata accessor shares the nested `dimensions` dict with the loader
(shallow copy), so assigning `x = 99` through the returned map changes what
the loader's own metadata reads: internal `dimensions -> x` becomes 99
instead of 8. -/
theorem metadata_nested_mutation_leaks :
    dictLookup sampleLoaderHeap 0 "dimensions" = some (.dictRef 1) ∧
    dictLookup (getMetadataRef sampleLoaderHeap 0).1 (getMetadataRef sampleLoaderHeap 0).2
        "dimensions" = some (.dictRef 1) ∧
    dictLookup sampleLoaderHeap 1 "x" = some (.prim 8) ∧
    dictLookup (dictSet (getMetadataRef sampleLoaderHeap 0).1 1 "x" (.prim 99)) 0
        "dimensions" = some (.dictRef 1) ∧
    dictLookup (dictSet (getMetadataRef sampleLoaderHeap 0).1 1 "x" (.prim 99)) 1 "x"
        = some (.prim 99) := by decide

/-- C8 amended: the accessors return fresh objects, so mutating or adding
top-level entries of the returned metadata map, or mutating the returned
volume array, never changes the loader's internal state; but the metadata
copy is shallow: the returned map holds the same entry pairs, so nested
sub-map references (dimensions, spacing, origin) are shared, and mutating
those through the returned map does change internal state (see the
counterexample). -/
theorem accessor_copy_semantics (h : PyHeap) (a va : Nat) (k : String) (v : PyVal)
    (i n : Nat) (ha : a < h.dicts.length) (hva : va < h.arrays.length) :
    (getMetadataRef h a).2 ≠ a ∧
    dictEntries (getMetadataRef h a).1 (getMetadataRef h a).2 = dictEntries h a ∧
    dictEntries (dictSet (getMetadataRef h a).1 (getMetadataRef h a).2 k v) a
      = dictEntries h a ∧
    (getVolumeRef h va).2 ≠ va ∧
    arrData (arrSet (getVolumeRef h va).1 (getVolumeRef h va).2 i n) va
      = arrData h va := by
  refine ⟨by simp only [getMetadataRef, dictAlloc]; omega, ?_, ?_, ?_, ?_⟩
  · simp only [getMetadataRef, dictAlloc, dictEntries]
    exact getD_append_self h.dicts (dictEntries h a) []
  · simp only [getMetadataRef, dictAlloc, dictSet, dictEntries]
    rw [getD_set_ne _ _ _ _ _ (by omega)]
    exact getD_append_left_of_lt h.dicts _ a ha []
  · simp only [getVolumeRef, arrAlloc]
    omega
  · simp only [getVolumeRef, arrAlloc, arrSet, arrData]
    rw [getD_set_ne _ _ _ _ _ (by omega)]
    exact getD_append_left_of_lt h.arrays _ va hva []

/-- C8 amended witness: on the sample loader state, adding a key through the
returned metadata map and writing a voxel through the returned volume array
leave the internal objects unchanged. -/
theorem accessor_copy_semantics_witness :
    (0 : Nat) < sampleLoaderHeap.dicts.length ∧
    (0 : Nat) < sampleLoaderHeap.arrays.length ∧
    dictEntries (dictSet (getMetadataRef sampleLoaderHeap 0).1
        (getMetadataRef sampleLoaderHeap 0).2 "extra" (.prim 1)) 0
      = dictEntries sampleLoaderHeap 0 ∧
    arrData (arrSet (getVolumeRef sampleLoaderHeap 0).1
        (getVolumeRef sampleLoaderHeap 0).2 0 255) 0
      = arrData sampleLoaderHeap 0 :=
  ⟨by decide, by decide,
    (accessor_copy_semantics sampleLoaderHeap 0 0 "extra" (.prim 1) 0 255
      (by decide) (by decide)).2.2.1,
    (accessor_copy_semantics sampleLoaderHeap 0 0 "extra" (.prim 1) 0 255
      (by decide) (by decide)).2.2.2.2⟩

end Kretz
